import Mathlib

/-!
Verification development for the `dynprog` dynamic-programming library.

The library has two engines:
* `dynprog/sequential.py` — a sequential DP that processes a list of inputs
  generation by generation (`max_value`, `max_value_solution`);
* `dynprog/classbased.py` — a general worklist-based DP on an implicit state
  graph (`DynProg.max_value`, `DynProg.solve`).

Both are embedded below as executable Lean functions.  Python exceptions are
modelled by an explicit error type; the unbounded `while` loops of the general
engine are modelled with an explicit fuel parameter (fuel exhaustion is a
modelling artifact, distinct from every Python exception).
-/

/-- The Python exceptions that the engines can raise, kept distinct by kind:
`valueError` models `ValueError` (both the explicit
`raise ValueError("No final states!")` of the sequential engine and the
`ValueError` raised by `max()` on an empty sequence), `keyError` models a
failed `dict` lookup, `indexError` a failed list indexing.  `fuelExhausted`
is not a Python exception: it marks that the fuel given to a modelled
`while` loop ran out. -/
inductive PyError : Type where
  | valueError : PyError
  | keyError : PyError
  | indexError : PyError
  | fuelExhausted : PyError
deriving DecidableEq, Repr

/-- Result of running a piece of Python code: a value or a raised exception. -/
inductive PyResult (α : Type u) : Type u where
  | ok : α → PyResult α
  | err : PyError → PyResult α
deriving DecidableEq, Repr

namespace PyResult

/-- Sequencing of fallible computations (a raised exception propagates). -/
def bind : PyResult α → (α → PyResult β) → PyResult β
  | ok a, f => f a
  | err e, _ => err e

/-- Mapping over the value of a fallible computation. -/
def map (f : α → β) : PyResult α → PyResult β
  | ok a => ok (f a)
  | err e => err e

/-- Whether the computation finished without raising an exception. -/
def isOk : PyResult α → Bool
  | ok _ => true
  | err _ => false

end PyResult

/-- Python's `max` over a non-empty list given as head and tail: keeps the
first element whose key is maximal (`max` replaces the current best only on a
strictly greater key). -/
def pyMaxBy [LinearOrder α] (key : β → α) (x : β) (xs : List β) : β :=
  xs.foldl (fun b y => if key y > key b then y else b) x

namespace Sequential

/-! ## Embedding of `dynprog/sequential.py` -/

variable {σ ι α Sol : Type} [LinearOrder α]

/-- Embeds `_default_filter_functions(transition_functions)`: one all-accepting
filter per transition function. -/
def default_filter_functions (transition_functions : List (σ → ι → σ)) :
    List (σ → ι → Bool) :=
  transition_functions.map (fun _ => fun _ _ => true)

/-- One step of `max_value`'s loop body: the list comprehension
`[f(state,input) for (f,h) in zip(transition_functions,filter_functions)
for state in current_states if h(state,input)]`. -/
def next_states (transition_functions : List (σ → ι → σ))
    (filter_functions : List (σ → ι → Bool))
    (current_states : List σ) (input : ι) : List σ :=
  (transition_functions.zip filter_functions).flatMap fun fh =>
    (current_states.filter fun s => fh.2 s input).map fun s => fh.1 s input

/-- The generations of live states produced by `max_value`'s loop, starting
from `current_states`: one list of states per processed input. -/
def state_generations (F : List (σ → ι → σ)) (H : List (σ → ι → Bool)) :
    List ι → List σ → List (List σ)
  | [], _ => []
  | input :: inputs, current =>
    let next := next_states F H current input
    next :: state_generations F H inputs next

/-- The live states remaining after `max_value`'s loop has processed all
inputs. -/
def final_states (F : List (σ → ι → σ)) (H : List (σ → ι → Bool)) :
    List ι → List σ → List σ
  | [], current => current
  | input :: inputs, current =>
    final_states F H inputs (next_states F H current input)

/-- Embeds `dynprog.sequential.max_value`.  Raises `ValueError("No final states!")`
when the final generation is empty, otherwise returns
`max([value_function(state) for state in current_states])`. -/
def max_value (inputs : List ι) (initial_states : List σ)
    (transition_functions : List (σ → ι → σ)) (value_function : σ → α)
    (filter_functions : Option (List (σ → ι → Bool))) : PyResult α :=
  let H := filter_functions.getD (default_filter_functions transition_functions)
  match final_states transition_functions H inputs initial_states with
  | [] => .err .valueError
  | s :: rest => .ok ((rest.map value_function).foldl max (value_function s))

/-- The `StateRecord` dataclass of `max_value_solution`: a state, a link to
the record it came from (`none` for an initial record), and the index of the
transition function used. -/
inductive StateRecord (σ : Type) : Type where
  | init : σ → StateRecord σ
  | step : σ → StateRecord σ → ℕ → StateRecord σ
deriving DecidableEq, Repr

/-- The `state` field of a `StateRecord`. -/
def StateRecord.state : StateRecord σ → σ
  | .init s => s
  | .step s _ _ => s

/-- The chain of `transition_index` values recovered by walking `prev` links
back from a record and inserting each index at the front of the path
(`while record.prev is not None: path.insert(0, record.transition_index)`). -/
def StateRecord.path : StateRecord σ → List ℕ
  | .init _ => []
  | .step _ prev k => prev.path ++ [k]

/-- Number of `prev` links from a record back to its initial record. -/
def StateRecord.depth : StateRecord σ → ℕ
  | .init _ => 0
  | .step _ prev _ => prev.depth + 1

/-- One step of `max_value_solution`'s loop body, from position `k` in the
zipped transition/filter list: the comprehension
`[StateRecord(f(record.state,input), record, transition_index) for
(transition_index,(f,h)) in enumerate(zip(...)) for record in
current_state_records if h(record.state, input)]`. -/
def next_records_from (input : ι) (current : List (StateRecord σ)) :
    ℕ → List ((σ → ι → σ) × (σ → ι → Bool)) → List (StateRecord σ)
  | _, [] => []
  | k, fh :: rest =>
    ((current.filter fun r => fh.2 r.state input).map
      fun r => .step (fh.1 r.state input) r k)
      ++ next_records_from input current (k + 1) rest

/-- The next generation of `StateRecord`s for one input. -/
def next_records (F : List (σ → ι → σ)) (H : List (σ → ι → Bool))
    (current : List (StateRecord σ)) (input : ι) : List (StateRecord σ) :=
  next_records_from input current 0 (F.zip H)

/-- The generations of `StateRecord`s produced by `max_value_solution`'s
loop: one list per processed input. -/
def record_generations (F : List (σ → ι → σ)) (H : List (σ → ι → Bool)) :
    List ι → List (StateRecord σ) → List (List (StateRecord σ))
  | [], _ => []
  | input :: inputs, current =>
    let next := next_records F H current input
    next :: record_generations F H inputs next

/-- The loop of `max_value_solution`: returns the final generation of records
together with `num_of_processed_states` (seeded with the number of initial
records and incremented by each generation's length). -/
def run_records (F : List (σ → ι → σ)) (H : List (σ → ι → Bool)) :
    List ι → List (StateRecord σ) → ℕ → List (StateRecord σ) × ℕ
  | [], current, n => (current, n)
  | input :: inputs, current, n =>
    let next := next_records F H current input
    run_records F H inputs next (n + next.length)

/-- The generation of records remaining after `max_value_solution`'s loop
has processed all inputs (the first component of `run_records`). -/
def final_records (F : List (σ → ι → σ)) (H : List (σ → ι → Bool)) :
    List ι → List (StateRecord σ) → List (StateRecord σ)
  | [], current => current
  | input :: inputs, current =>
    final_records F H inputs (next_records F H current input)

/-- The solution-replay loop of `max_value_solution`:
`for input_index,input in enumerate(inputs): solution =
construction_functions[path[input_index]](solution, input)`; a too-short
`path` or an out-of-range `transition_index` raises `IndexError`. -/
def construct_solution (construction_functions : List (Sol → ι → Sol)) :
    Sol → List ι → List ℕ → PyResult Sol
  | sol, [], _ => .ok sol
  | _, _ :: _, [] => .err .indexError
  | sol, input :: inputs, k :: path =>
    match construction_functions.get? k with
    | none => .err .indexError
    | some c => construct_solution construction_functions (c sol input) inputs path

/-- Embeds `dynprog.sequential.max_value_solution`: returns
`(best_final_state, best_final_state_value, solution, num_of_processed_states)`
or the raised exception. -/
def max_value_solution (inputs : List ι) (initial_states : List σ)
    (transition_functions : List (σ → ι → σ)) (value_function : σ → α)
    (initial_solution : Sol) (construction_functions : List (Sol → ι → Sol))
    (filter_functions : Option (List (σ → ι → Bool))) :
    PyResult (σ × α × Sol × ℕ) :=
  let H := filter_functions.getD (default_filter_functions transition_functions)
  let out := run_records transition_functions H inputs
    (initial_states.map .init) initial_states.length
  match out.1 with
  | [] => .err .valueError
  | r :: rest =>
    let best := pyMaxBy (fun rec => value_function rec.state) r rest
    (construct_solution construction_functions initial_solution inputs
      best.path).map fun sol =>
        (best.state, value_function best.state, sol, out.2)

end Sequential

/-! ## Embedding of `dynprog/classbased.py` -/

/-- A problem instance for the general engine: the abstract methods of the
`DynProg` class.  `initial_states` and `neighbors` yield `(state, value,
data)` triples; `DynProg.max_value` passes `None` as the `data` argument of
`neighbors`, `DynProg.solve` passes the popped record's data, so the
callback receives an `Option δ`.  `final_states` is the generator used by
`max_value`; `is_final_state` is the predicate used by `solve`. -/
structure DynProg (σ α δ : Type) : Type where
  initial_states : List (σ × α × δ)
  neighbors : σ → α → Option δ → List (σ × α × δ)
  final_states : List σ
  is_final_state : σ → Bool

namespace Classbased

variable {σ α δ : Type} [DecidableEq σ] [LinearOrder α]

/-- Lookup in a Python `dict` modelled as an association list with unique
keys: `m[k]` when present. -/
def dictLookup (m : List (σ × β)) (k : σ) : Option β :=
  (m.find? fun p => decide (p.1 = k)).map (·.2)

/-- Membership `k in m` for a Python `dict`. -/
def dictContains (m : List (σ × β)) (k : σ) : Bool :=
  m.any fun p => decide (p.1 = k)

/-- Assignment `m[k] = v` for a Python `dict`: replace the value at an existing key,
else append the new binding. -/
def dictSet (m : List (σ × β)) (k : σ) (v : β) : List (σ × β) :=
  if dictContains m k then
    m.map fun p => if p.1 = k then (k, v) else p
  else m ++ [(k, v)]

/-- The inner `for` loop of `DynProg.max_value` over the neighbors of the
popped state: a seen neighbor updates the recorded value when strictly
greater; an unseen neighbor is appended to `open_states` (the code does NOT
record its value in `map_state_to_value`).  Also accumulates the history of
every state appended to `open_states`. -/
def gmax_visit : List (σ × α × δ) → List (σ × α) → List σ → List σ →
    List (σ × α) × List σ × List σ
  | [], m, opens, hist => (m, opens, hist)
  | nb :: more, m, opens, hist =>
    match dictLookup m nb.1 with
    | some old =>
      if nb.2.1 > old then gmax_visit more (dictSet m nb.1 nb.2.1) opens hist
      else gmax_visit more m opens hist
    | none => gmax_visit more m (opens ++ [nb.1]) (hist ++ [nb.1])

/-- The `while` loop of `DynProg.max_value`, with fuel.  State: the
`open_states` worklist, `map_state_to_value`, `num_of_processed_states`, and
the instrumentation history of every state ever enqueued.  Popping a state
absent from `map_state_to_value` raises `KeyError`
(`current_value = map_state_to_value[current_state]`). -/
def gmax_loop (dp : DynProg σ α δ) :
    ℕ → List σ → List (σ × α) → ℕ → List σ →
    PyResult (List (σ × α) × ℕ) × List σ
  | 0, [], m, n, hist => (.ok (m, n), hist)
  | 0, _ :: _, _, _, hist => (.err .fuelExhausted, hist)
  | _ + 1, [], m, n, hist => (.ok (m, n), hist)
  | fuel + 1, cur :: rest, m, n, hist =>
    match dictLookup m cur with
    | none => (.err .keyError, hist)
    | some curVal =>
      let step := gmax_visit (dp.neighbors cur curVal none) m rest hist
      gmax_loop dp fuel step.2.1 step.1 (n + 1) step.2.2

/-- The traversal of `DynProg.max_value` from its seeded worklist and value map
(each initial state is appended to `open_states` and its value recorded). -/
def gmax_run (dp : DynProg σ α δ) (fuel : ℕ) :
    PyResult (List (σ × α) × ℕ) × List σ :=
  let opens := dp.initial_states.map (·.1)
  let m := dp.initial_states.foldl (fun m svd => dictSet m svd.1 svd.2.1) []
  gmax_loop dp fuel opens m 0 opens

/-- The comprehension `[map_state_to_value[state] for state in
self.final_states()]`: raises `KeyError` at the first final state that was
never recorded in the map. -/
def finals_values (m : List (σ × α)) : List σ → PyResult (List α)
  | [] => .ok []
  | s :: rest =>
    match dictLookup m s with
    | none => .err .keyError
    | some v => (finals_values m rest).map (v :: ·)

/-- Embeds `DynProg.max_value`: run the traversal, then return
`max([map_state_to_value[state] for state in self.final_states()])`
(`ValueError` on an empty sequence). -/
def max_value_general (dp : DynProg σ α δ) (fuel : ℕ) : PyResult α :=
  match (gmax_run dp fuel).1 with
  | .err e => .err e
  | .ok (m, _) =>
    match finals_values m dp.final_states with
    | .err e => .err e
    | .ok [] => .err .valueError
    | .ok (v :: vs) => .ok (vs.foldl max v)

/-- The inner `for` loop of `DynProg.solve`: a neighbor whose state is
already in `map_state_to_previous` is skipped (`continue`); otherwise its
triple is appended to `open_states` and its parent pointer set to the popped
triple. -/
def gsolve_visit (cur : σ × α × δ) :
    List (σ × α × δ) → List (σ × Option (σ × α × δ)) → List (σ × α × δ) →
    List (σ × Option (σ × α × δ)) × List (σ × α × δ)
  | [], mp, opens => (mp, opens)
  | nb :: more, mp, opens =>
    if dictContains mp nb.1 then gsolve_visit cur more mp opens
    else gsolve_visit cur more (dictSet mp nb.1 (some cur)) (opens ++ [nb])

/-- The `while` loop of `DynProg.solve`, with fuel.  A popped triple whose
state satisfies `is_final_state` is appended to `reached_final_states`;
then its neighbors are discovered (first discovery wins).  The loop's
`map_state_to_value` is written only for initial states and never read, so
it is not carried here. -/
def gsolve_loop (dp : DynProg σ α δ) :
    ℕ → List (σ × α × δ) → List (σ × Option (σ × α × δ)) →
    List (σ × α × δ) → ℕ →
    PyResult (List (σ × α × δ) × List (σ × Option (σ × α × δ)) × ℕ)
  | 0, [], mp, reached, n => .ok (reached, mp, n)
  | 0, _ :: _, _, _, _ => .err .fuelExhausted
  | _ + 1, [], mp, reached, n => .ok (reached, mp, n)
  | fuel + 1, cur :: rest, mp, reached, n =>
    let reached' := if dp.is_final_state cur.1 then reached ++ [cur] else reached
    let step := gsolve_visit cur (dp.neighbors cur.1 cur.2.1 (some cur.2.2)) mp rest
    gsolve_loop dp fuel step.2 step.1 reached' (n + 1)

/-- The traversal of `DynProg.solve` from its seeded worklist and parent map. -/
def gsolve_run (dp : DynProg σ α δ) (fuel : ℕ) :
    PyResult (List (σ × α × δ) × List (σ × Option (σ × α × δ)) × ℕ) :=
  let mp := dp.initial_states.foldl (fun mp svd => dictSet mp svd.1 none) []
  gsolve_loop dp fuel dp.initial_states mp [] 0

/-- The path-reconstruction loop at the end of `DynProg.solve`:
`path.insert(0, current_state); previous = map_state_to_previous[...]`,
walking parents until a `None` parent (an initial state). -/
def walk_path (mp : List (σ × Option (σ × α × δ))) :
    ℕ → σ × α × δ → List σ → PyResult (List σ)
  | 0, _, _ => .err .fuelExhausted
  | fuel + 1, cur, path =>
    match dictLookup mp cur.1 with
    | none => .err .keyError
    | some none => .ok (cur.1 :: path)
    | some (some prev) => walk_path mp fuel prev (cur.1 :: path)

/-- Runs `DynProg.solve` together with the `path` list that the code computes
internally just before returning: the best-valued reached final triple
(Python's `max` with `key=lambda s: s[1]`, first maximum wins) paired with
the reconstructed path. -/
def solve_full (dp : DynProg σ α δ) (fuel : ℕ) :
    PyResult ((σ × α × δ) × List σ) :=
  match gsolve_run dp fuel with
  | .err e => .err e
  | .ok (reached, mp, _) =>
    match reached with
    | [] => .err .valueError
    | r :: rs =>
      let best := pyMaxBy (fun t => t.2.1) r rs
      (walk_path mp fuel best []).map fun p => (best, p)

/-- Embeds `DynProg.solve`: the function's actual return value,
`best_final_state_value_data` alone (the computed `path` is discarded). -/
def solve (dp : DynProg σ α δ) (fuel : ℕ) : PyResult (σ × α × δ) :=
  (solve_full dp fuel).map (·.1)

end Classbased

namespace SpecModel

/-! ## Reference definitions taken from the spec's words (for the
refinement claim about the sequential `max_value`) -/

variable {σ ι α : Type} [LinearOrder α]

/-- Modelled from the spec (§4.2, algorithm of `max_value`): one step of the
reference fold, `next = [ f_k(s, input) for k in transitions for s in
current if h_k(s, input) ]`, rendered by direct recursion over the paired
transition/filter collections. -/
def reference_step (pairs : List ((σ → ι → σ) × (σ → ι → Bool)))
    (current : List σ) (input : ι) : List σ :=
  match pairs with
  | [] => []
  | fh :: rest =>
    (current.filterMap fun s => if fh.2 s input then some (fh.1 s input) else none)
      ++ reference_step rest current input

/-- Modelled from the spec: `current = initial_states`; for each input in
sequence, `current = next`. -/
def reference_fold (F : List (σ → ι → σ)) (H : List (σ → ι → Bool))
    (inputs : List ι) (S0 : List σ) : List σ :=
  inputs.foldl (fun cur inp => reference_step (F.zip H) cur inp) S0

/-- Modelled from the spec: after the loop, return
`max(g(s) for s in current)`, failing with the EmptyResult error when the
final generation is empty. -/
def reference_max_value (inputs : List ι) (S0 : List σ)
    (F : List (σ → ι → σ)) (g : σ → α) (H : List (σ → ι → Bool)) :
    PyResult α :=
  match reference_fold F H inputs S0 with
  | [] => .err .valueError
  | s :: rest => .ok (rest.foldl (fun b y => max b (g y)) (g s))

end SpecModel

/-! ## Concrete instances used to exercise the general engine -/

/-- A minimal general-engine instance: one initial state `0` (value `0`),
whose only neighbor is the new state `1` (value `1`), which is final. -/
def dpMissingValue : DynProg ℕ ℕ Unit where
  initial_states := [(0, 0, ())]
  neighbors := fun s _ _ => if s = 0 then [(1, 1, ())] else []
  final_states := [1]
  is_final_state := fun s => decide (s = 1)

/-- Two initial states `0` and `1` that both have the same new neighbor `2`,
which is final. -/
def dpDoubleEnqueue : DynProg ℕ ℕ Unit where
  initial_states := [(0, 0, ()), (1, 0, ())]
  neighbors := fun s _ _ => if s ≤ 1 then [(2, 1, ())] else []
  final_states := [2]
  is_final_state := fun s => decide (s = 2)

/-- One initial state `0` with no neighbors; the declared final state `5`
is never reached. -/
def dpUnreachedFinal : DynProg ℕ ℕ Unit where
  initial_states := [(0, 0, ())]
  neighbors := fun _ _ _ => []
  final_states := [5]
  is_final_state := fun s => decide (s = 5)

/-- The final triple `(1, 5, 7)` is reached from the initial state `0`
through one transition: the internal ancestry path is `[0, 1]`. -/
def dpPathLong : DynProg ℕ ℕ ℕ where
  initial_states := [(0, 0, 7)]
  neighbors := fun s _ _ => if s = 0 then [(1, 5, 7)] else []
  final_states := [1]
  is_final_state := fun s => decide (s = 1)

/-- The same final triple `(1, 5, 7)` is itself initial: the internal
ancestry path is just `[1]`. -/
def dpPathShort : DynProg ℕ ℕ ℕ where
  initial_states := [(1, 5, 7)]
  neighbors := fun _ _ _ => []
  final_states := [1]
  is_final_state := fun s => decide (s = 1)

/-! ## The subset-sum example instance (`examples/subset_sum.py`) -/

/-- The inputs of the subset-sum doctest. -/
def ssInputs : List ℤ := [100, 200, 400, 700, 1100, 1600, 2200, 2900, 3700]

/-- The two transition functions: add the input, or keep the state. -/
def ssF : List (ℤ → ℤ → ℤ) := [fun s i => s + i, fun s _ => s + 0]

/-- The two filters for capacity `4005`: adding is allowed only while the
sum stays within capacity. -/
def ssH : List (ℤ → ℤ → Bool) := [fun s i => decide (s + i ≤ 4005), fun _ _ => true]

/-- The two construction functions: append the input, or keep the
solution. -/
def ssC : List (List ℤ → ℤ → List ℤ) := [fun sol i => sol ++ [i], fun sol _ => sol]

section Theorems

variable {σ ι α Sol : Type} [LinearOrder α]

theorem filterMap_guard (p : σ → Bool) (f : σ → ι) (l : List σ) :
    l.filterMap (fun s => if p s then some (f s) else none)
      = (l.filter p).map f := by
  induction l with
  | nil => rfl
  | cons a l ih =>
    by_cases h : p a <;>
      simp [List.filterMap_cons, List.filter_cons, h, ih]

theorem reference_step_eq (pairs : List ((σ → ι → σ) × (σ → ι → Bool)))
    (cur : List σ) (input : ι) :
    SpecModel.reference_step pairs cur input
      = pairs.flatMap fun fh =>
          (cur.filter fun s => fh.2 s input).map fun s => fh.1 s input := by
  induction pairs with
  | nil => rfl
  | cons fh rest ih =>
    simp [SpecModel.reference_step, List.flatMap_cons, ih, filterMap_guard]

theorem reference_fold_eq (F : List (σ → ι → σ)) (H : List (σ → ι → Bool))
    (inputs : List ι) (S0 : List σ) :
    SpecModel.reference_fold F H inputs S0
      = Sequential.final_states F H inputs S0 := by
  induction inputs generalizing S0 with
  | nil => rfl
  | cons input inputs ih =>
    simp [SpecModel.reference_fold, Sequential.final_states, List.foldl_cons] at *
    rw [reference_step_eq]
    exact ih _

/-- C1 : for every input list, initial states, transition functions, value
function and filter choice, the sequential engine's `max_value` computes
exactly the spec's reference fold — each generation is the ordered list of
`f_k(s, input)` over transition functions then live states, keeping pairs
whose paired filter accepts (duplicates kept as distinct elements), and the
final answer is the maximum of the value function over the final
generation; an omitted filter collection behaves as one all-accepting
filter per transition function. -/
theorem c1_max_value_matches_reference_fold :
    ∀ (inputs : List ι) (S0 : List σ) (F : List (σ → ι → σ)) (g : σ → α)
      (H : List (σ → ι → Bool)),
      Sequential.max_value inputs S0 F g (some H)
        = SpecModel.reference_max_value inputs S0 F g H
      ∧ Sequential.max_value inputs S0 F g none
        = SpecModel.reference_max_value inputs S0 F g
            (F.map fun _ => fun _ _ => true) := by
  intro inputs S0 F g H
  constructor
  · simp only [Sequential.max_value, SpecModel.reference_max_value,
      reference_fold_eq, Option.getD]
    cases Sequential.final_states F H inputs S0 with
    | nil => rfl
    | cons s rest => simp [List.foldl_map]
  · simp only [Sequential.max_value, SpecModel.reference_max_value,
      reference_fold_eq, Option.getD, Sequential.default_filter_functions]
    cases Sequential.final_states F (F.map fun _ => fun _ _ => true) inputs S0 with
    | nil => rfl
    | cons s rest => simp [List.foldl_map]

theorem pyMaxBy_cons (key : β → α) (x y : β) (ys : List β) :
    pyMaxBy key x (y :: ys)
      = pyMaxBy key (if key y > key x then y else x) ys := rfl

theorem pyMaxBy_mem (key : β → α) (x : β) (xs : List β) :
    pyMaxBy key x xs ∈ x :: xs := by
  induction xs generalizing x with
  | nil => simp [pyMaxBy]
  | cons y ys ih =>
    rw [pyMaxBy_cons]
    rcases List.mem_cons.1 (ih (if key y > key x then y else x)) with h | h
    · rw [h]
      by_cases hc : key y > key x <;> simp [hc]
    · exact List.mem_cons_of_mem _ (List.mem_cons_of_mem _ h)

theorem le_pyMaxBy (key : β → α) (x : β) (xs : List β) :
    ∀ z ∈ x :: xs, key z ≤ key (pyMaxBy key x xs) := by
  induction xs generalizing x with
  | nil => intro z hz; rw [List.mem_singleton] at hz; simp [pyMaxBy, hz]
  | cons y ys ih =>
    intro z hz
    rw [pyMaxBy_cons]
    have hx : key x ≤ key (if key y > key x then y else x) := by
      by_cases hc : key y > key x <;> simp [hc]; exact le_of_lt hc
    have hy : key y ≤ key (if key y > key x then y else x) := by
      by_cases hc : key y > key x <;> simp [hc]; exact le_of_not_lt hc
    have hhead := ih (if key y > key x then y else x)
      (if key y > key x then y else x) (List.mem_cons_self _ _)
    rcases List.mem_cons.1 hz with rfl | hz
    · exact le_trans hx hhead
    · rcases List.mem_cons.1 hz with rfl | hz
      · exact le_trans hy hhead
      · exact ih _ z (List.mem_cons_of_mem _ hz)

theorem run_records_eq (F : List (σ → ι → σ)) (H : List (σ → ι → Bool))
    (inputs : List ι) (cur : List (Sequential.StateRecord σ)) (n : ℕ) :
    Sequential.run_records F H inputs cur n
      = (Sequential.final_records F H inputs cur,
         n + ((Sequential.record_generations F H inputs cur).map
            List.length).sum) := by
  induction inputs generalizing cur n with
  | nil => simp [Sequential.run_records, Sequential.final_records,
      Sequential.record_generations]
  | cons input inputs ih =>
    simp only [Sequential.run_records, Sequential.final_records,
      Sequential.record_generations, List.map_cons, List.sum_cons]
    rw [ih, Nat.add_assoc]

theorem mem_next_records_from {input : ι} {cur : List (Sequential.StateRecord σ)}
    {r : Sequential.StateRecord σ} :
    ∀ {k : ℕ} {pairs : List ((σ → ι → σ) × (σ → ι → Bool))},
      r ∈ Sequential.next_records_from input cur k pairs →
      ∃ prev ∈ cur, ∃ i, k ≤ i ∧ i < k + pairs.length ∧
        ∃ s, r = .step s prev i := by
  intro k pairs
  induction pairs generalizing k with
  | nil => intro h; exact absurd h (List.not_mem_nil r)
  | cons fh rest ih =>
    intro h
    rw [Sequential.next_records_from, List.mem_append] at h
    rcases h with h | h
    · rw [List.mem_map] at h
      obtain ⟨prev, hprev, hr⟩ := h
      exact ⟨prev, List.mem_of_mem_filter hprev, k, le_refl k,
        by rw [List.length_cons]; omega, _, hr.symm⟩
    · obtain ⟨prev, hprev, i, hki, hilt, s, hs⟩ := ih h
      exact ⟨prev, hprev, i, le_trans (Nat.le_succ k) hki,
        by rw [List.length_cons]; omega, s, hs⟩

theorem mem_final_records_invariant (F : List (σ → ι → σ))
    (H : List (σ → ι → Bool)) (inputs : List ι)
    (cur : List (Sequential.StateRecord σ)) (d : ℕ)
    (hcur : ∀ r ∈ cur, r.depth = d ∧ r.path.length = d ∧
      ∀ k ∈ r.path, k < F.length) :
    ∀ r ∈ Sequential.final_records F H inputs cur,
      r.depth = d + inputs.length ∧ r.path.length = d + inputs.length ∧
      ∀ k ∈ r.path, k < F.length := by
  induction inputs generalizing cur d with
  | nil => simpa [Sequential.final_records] using hcur
  | cons input inputs ih =>
    rw [Sequential.final_records]
    have hnext : ∀ r ∈ Sequential.next_records F H cur input,
        r.depth = d + 1 ∧ r.path.length = d + 1 ∧
        ∀ k ∈ r.path, k < F.length := by
      intro r hr
      rw [Sequential.next_records] at hr
      obtain ⟨prev, hprev, i, _, hilt, s, rfl⟩ := mem_next_records_from hr
      obtain ⟨hd, hp, hb⟩ := hcur prev hprev
      have hiF : i < F.length := by
        have hz : (F.zip H).length ≤ F.length := by
          rw [List.length_zip]
          exact min_le_left _ _
        omega
      refine ⟨by simp [Sequential.StateRecord.depth, hd],
        by simp [Sequential.StateRecord.path, hp],
        fun k hk => ?_⟩
      rw [Sequential.StateRecord.path, List.mem_append] at hk
      rcases hk with hk | hk
      · exact hb k hk
      · rw [List.mem_singleton] at hk; omega
    have := ih (Sequential.next_records F H cur input) (d + 1) hnext
    intro r hr
    obtain ⟨h1, h2, h3⟩ := this r hr
    rw [List.length_cons]
    exact ⟨by omega, by omega, h3⟩

theorem construct_solution_ok (C : List (Sol → ι → Sol)) :
    ∀ (inputs : List ι) (path : List ℕ) (sol : Sol),
      path.length = inputs.length → (∀ k ∈ path, k < C.length) →
      ∃ out, Sequential.construct_solution C sol inputs path = .ok out := by
  intro inputs
  induction inputs with
  | nil => intro path sol _ _; exact ⟨sol, rfl⟩
  | cons input inputs ih =>
    intro path sol hlen hbound
    match path with
    | [] => simp at hlen
    | k :: path =>
      rw [Sequential.construct_solution]
      have hk : k < C.length := hbound k (List.mem_cons_self _ _)
      rw [List.get?_eq_get hk]
      exact ih path _ (by simpa using hlen)
        (fun j hj => hbound j (List.mem_cons_of_mem _ hj))

theorem construct_solution_err_is_indexError (C : List (Sol → ι → Sol)) :
    ∀ (inputs : List ι) (path : List ℕ) (sol : Sol) (e : PyError),
      Sequential.construct_solution C sol inputs path = .err e →
      e = .indexError := by
  intro inputs
  induction inputs with
  | nil => intro path sol e h; simp [Sequential.construct_solution] at h
  | cons input inputs ih =>
    intro path sol e h
    match path with
    | [] =>
      rw [Sequential.construct_solution] at h
      cases h; rfl
    | k :: path =>
      rw [Sequential.construct_solution] at h
      cases hg : C.get? k with
      | none => rw [hg] at h; cases h; rfl
      | some c => rw [hg] at h; exact ih path _ e h

/-- C2 : whenever the final generation of `max_value_solution` is the
non-empty record list `r :: rest` and the construction-function list is at
least as long as the transition-function list, the call returns the 4-tuple
whose first component is the state of a final-generation record maximizing
the value function (Python's `max`: the first maximum in generation order),
whose second component is the value function applied to that state, whose
third component is obtained by replaying the construction functions, in
forward input order starting from the initial solution, at the transition
indices recovered from the chosen record's back-references, and whose
fourth component counts the initial states plus every record generated in
every generation. -/
theorem c2_max_value_solution_components
    (inputs : List ι) (S0 : List σ) (F : List (σ → ι → σ)) (g : σ → α)
    (sol0 : Sol) (C : List (Sol → ι → Sol))
    (Hopt : Option (List (σ → ι → Bool)))
    (r : Sequential.StateRecord σ) (rest : List (Sequential.StateRecord σ))
    (hfin : Sequential.final_records F
        (Hopt.getD (Sequential.default_filter_functions F)) inputs
        (S0.map .init) = r :: rest)
    (hC : F.length ≤ C.length) :
    (Sequential.construct_solution C sol0 inputs
        (pyMaxBy (fun q => g q.state) r rest).path).isOk = true
    ∧ Sequential.max_value_solution inputs S0 F g sol0 C Hopt
        = (Sequential.construct_solution C sol0 inputs
            (pyMaxBy (fun q => g q.state) r rest).path).map
            (fun sol => ((pyMaxBy (fun q => g q.state) r rest).state,
              g (pyMaxBy (fun q => g q.state) r rest).state, sol,
              S0.length + ((Sequential.record_generations F
                (Hopt.getD (Sequential.default_filter_functions F)) inputs
                (S0.map .init)).map List.length).sum))
    ∧ pyMaxBy (fun q => g q.state) r rest ∈ r :: rest
    ∧ ∀ q ∈ r :: rest,
        g q.state ≤ g (pyMaxBy (fun q => g q.state) r rest).state := by
  have hmem : pyMaxBy (fun q => g q.state) r rest ∈ r :: rest :=
    pyMaxBy_mem _ r rest
  have hinit : ∀ q ∈ S0.map Sequential.StateRecord.init,
      q.depth = 0 ∧ q.path.length = 0 ∧ ∀ k ∈ q.path, k < F.length := by
    intro q hq
    rw [List.mem_map] at hq
    obtain ⟨s, _, rfl⟩ := hq
    exact ⟨rfl, rfl, fun k hk => absurd hk (List.not_mem_nil k)⟩
  obtain ⟨_, hplen, hpb⟩ := mem_final_records_invariant F
    (Hopt.getD (Sequential.default_filter_functions F)) inputs
    (S0.map .init) 0 hinit (pyMaxBy (fun q => g q.state) r rest)
    (by rw [hfin]; exact hmem)
  obtain ⟨sol, hsol⟩ := construct_solution_ok C inputs
    (pyMaxBy (fun q => g q.state) r rest).path sol0 (by omega)
    (fun k hk => lt_of_lt_of_le (hpb k hk) hC)
  refine ⟨by rw [hsol]; rfl, ?_, hmem, le_pyMaxBy _ r rest⟩
  simp only [Sequential.max_value_solution, run_records_eq, hfin]

/-- C10 : every record in the final generation of `max_value_solution`
heads a back-pointer chain of exactly one link per input, its recovered
path holds exactly one transition index per input, every index on the path
is a valid position in the transition-function list, and consequently the
replay loop completes without an indexing error whenever the
construction-function list is at least as long as the transition-function
list. -/
theorem c10_final_record_chain_in_bounds
    (inputs : List ι) (S0 : List σ) (F : List (σ → ι → σ))
    (H : List (σ → ι → Bool)) (C : List (Sol → ι → Sol)) (sol0 : Sol)
    (r : Sequential.StateRecord σ)
    (hr : r ∈ (Sequential.run_records F H inputs (S0.map .init) S0.length).1)
    (hC : F.length ≤ C.length) :
    r.depth = inputs.length ∧ r.path.length = inputs.length
    ∧ (∀ k ∈ r.path, k < F.length)
    ∧ (Sequential.construct_solution C sol0 inputs r.path).isOk = true := by
  rw [run_records_eq] at hr
  have hinit : ∀ q ∈ S0.map Sequential.StateRecord.init,
      q.depth = 0 ∧ q.path.length = 0 ∧ ∀ k ∈ q.path, k < F.length := by
    intro q hq
    rw [List.mem_map] at hq
    obtain ⟨s, _, rfl⟩ := hq
    exact ⟨rfl, rfl, fun k hk => absurd hk (List.not_mem_nil k)⟩
  obtain ⟨h1, h2, h3⟩ :=
    mem_final_records_invariant F H inputs (S0.map .init) 0 hinit r hr
  obtain ⟨sol, hsol⟩ := construct_solution_ok C inputs r.path sol0 (by omega)
    (fun k hk => lt_of_lt_of_le (h3 k hk) hC)
  exact ⟨by omega, by omega, h3, by rw [hsol]; rfl⟩

/-- Witness for C2 at a concrete one-input instance (transitions: add the
input / keep the state, value = identity, default filters). -/
theorem c2_max_value_solution_components_witness :
    Sequential.final_records ssF (Sequential.default_filter_functions ssF)
        [(1:ℤ)] ([(0:ℤ)].map Sequential.StateRecord.init)
      = [Sequential.StateRecord.step 1 (Sequential.StateRecord.init 0) 0,
         Sequential.StateRecord.step 0 (Sequential.StateRecord.init 0) 1]
    ∧ ssF.length ≤ ssC.length
    ∧ ((Sequential.construct_solution ssC [] [(1:ℤ)] [0]).isOk = true
      ∧ Sequential.max_value_solution [(1:ℤ)] [(0:ℤ)] ssF (fun s => s) []
          ssC none = .ok (1, 1, [1], 3)
      ∧ Sequential.StateRecord.step (1:ℤ) (Sequential.StateRecord.init 0) 0
          ∈ [Sequential.StateRecord.step (1:ℤ) (Sequential.StateRecord.init 0) 0,
             Sequential.StateRecord.step 0 (Sequential.StateRecord.init 0) 1]
      ∧ ∀ q ∈ [Sequential.StateRecord.step (1:ℤ) (Sequential.StateRecord.init 0) 0,
             Sequential.StateRecord.step 0 (Sequential.StateRecord.init 0) 1],
          q.state ≤ (1:ℤ)) :=
  ⟨by rfl, by decide,
    c2_max_value_solution_components [(1:ℤ)] [(0:ℤ)] ssF (fun s => s) [] ssC
      none (Sequential.StateRecord.step 1 (Sequential.StateRecord.init 0) 0)
      [Sequential.StateRecord.step 0 (Sequential.StateRecord.init 0) 1]
      (by rfl) (by decide)⟩

/-- Witness for C10 at a concrete one-input instance with the subset-sum
transitions and filters. -/
theorem c10_final_record_chain_in_bounds_witness :
    Sequential.StateRecord.step (1:ℤ) (Sequential.StateRecord.init 0) 0
      ∈ (Sequential.run_records ssF ssH [(1:ℤ)]
          ([(0:ℤ)].map Sequential.StateRecord.init) 1).1
    ∧ ssF.length ≤ ssC.length
    ∧ ((Sequential.StateRecord.step (1:ℤ)
          (Sequential.StateRecord.init 0) 0).depth = 1
      ∧ (Sequential.StateRecord.step (1:ℤ)
          (Sequential.StateRecord.init 0) 0).path.length = 1
      ∧ (∀ k ∈ (Sequential.StateRecord.step (1:ℤ)
          (Sequential.StateRecord.init 0) 0).path, k < ssF.length)
      ∧ (Sequential.construct_solution ssC [] [(1:ℤ)]
          (Sequential.StateRecord.step (1:ℤ)
            (Sequential.StateRecord.init 0) 0).path).isOk = true) :=
  ⟨by decide, by decide,
    c10_final_record_chain_in_bounds [(1:ℤ)] [(0:ℤ)] ssF ssH ssC []
      (Sequential.StateRecord.step 1 (Sequential.StateRecord.init 0) 0)
      (by decide) (by decide)⟩

theorem next_states_nil (F : List (σ → ι → σ)) (H : List (σ → ι → Bool))
    (input : ι) : Sequential.next_states F H ([] : List σ) input = [] := by
  simp [Sequential.next_states]

theorem final_states_nil (F : List (σ → ι → σ)) (H : List (σ → ι → Bool))
    (inputs : List ι) :
    Sequential.final_states F H inputs ([] : List σ) = [] := by
  induction inputs with
  | nil => rfl
  | cons input inputs ih =>
    rw [Sequential.final_states, next_states_nil]
    exact ih

theorem next_records_from_nil (input : ι) (k : ℕ)
    (pairs : List ((σ → ι → σ) × (σ → ι → Bool))) :
    Sequential.next_records_from input
      ([] : List (Sequential.StateRecord σ)) k pairs = [] := by
  induction pairs generalizing k with
  | nil => rfl
  | cons fh rest ih =>
    rw [Sequential.next_records_from]
    simp [ih]

theorem final_records_nil (F : List (σ → ι → σ)) (H : List (σ → ι → Bool))
    (inputs : List ι) :
    Sequential.final_records F H inputs
      ([] : List (Sequential.StateRecord σ)) = [] := by
  induction inputs with
  | nil => rfl
  | cons input inputs ih =>
    rw [Sequential.final_records, Sequential.next_records,
      next_records_from_nil]
    exact ih

/-- C6 : the sequential `max_value` and `max_value_solution` raise the
EmptyResult error exactly when the generation remaining after all inputs is
empty; with an empty input sequence and non-empty initial states,
`max_value` returns the best initial value and `max_value_solution` returns
the initial solution unchanged; with no initial states both raise the
EmptyResult error. -/
theorem c6_empty_result_iff_final_generation_empty :
    (∀ (inputs : List ι) (S0 : List σ) (F : List (σ → ι → σ)) (g : σ → α)
        (Hopt : Option (List (σ → ι → Bool))),
      Sequential.max_value inputs S0 F g Hopt = .err .valueError
        ↔ Sequential.final_states F
            (Hopt.getD (Sequential.default_filter_functions F)) inputs S0 = [])
    ∧ (∀ (inputs : List ι) (S0 : List σ) (F : List (σ → ι → σ)) (g : σ → α)
        (sol0 : Sol) (C : List (Sol → ι → Sol))
        (Hopt : Option (List (σ → ι → Bool))),
      Sequential.max_value_solution inputs S0 F g sol0 C Hopt
          = .err .valueError
        ↔ Sequential.final_records F
            (Hopt.getD (Sequential.default_filter_functions F)) inputs
            (S0.map .init) = [])
    ∧ (∀ (s : σ) (rest : List σ) (F : List (σ → ι → σ)) (g : σ → α)
        (Hopt : Option (List (σ → ι → Bool))),
      Sequential.max_value ([] : List ι) (s :: rest) F g Hopt
        = .ok ((rest.map g).foldl max (g s)))
    ∧ (∀ (s : σ) (rest : List σ) (F : List (σ → ι → σ)) (g : σ → α)
        (sol0 : Sol) (C : List (Sol → ι → Sol))
        (Hopt : Option (List (σ → ι → Bool))),
      Sequential.max_value_solution ([] : List ι) (s :: rest) F g sol0 C Hopt
        = .ok ((pyMaxBy (fun q => g q.state)
              (Sequential.StateRecord.init s) (rest.map .init)).state,
            g (pyMaxBy (fun q => g q.state)
              (Sequential.StateRecord.init s) (rest.map .init)).state,
            sol0, (s :: rest).length))
    ∧ (∀ (inputs : List ι) (F : List (σ → ι → σ)) (g : σ → α)
        (Hopt : Option (List (σ → ι → Bool))),
      Sequential.max_value inputs ([] : List σ) F g Hopt = .err .valueError)
    ∧ (∀ (inputs : List ι) (F : List (σ → ι → σ)) (g : σ → α)
        (sol0 : Sol) (C : List (Sol → ι → Sol))
        (Hopt : Option (List (σ → ι → Bool))),
      Sequential.max_value_solution inputs ([] : List σ) F g sol0 C Hopt
        = .err .valueError) := by
  refine ⟨?_, ?_, ?_, ?_, ?_, ?_⟩
  · intro inputs S0 F g Hopt
    cases h : Sequential.final_states F
        (Hopt.getD (Sequential.default_filter_functions F)) inputs S0 with
    | nil => simp [Sequential.max_value, h]
    | cons s rest => simp [Sequential.max_value, h]
  · intro inputs S0 F g sol0 C Hopt
    cases h : Sequential.final_records F
        (Hopt.getD (Sequential.default_filter_functions F)) inputs
        (S0.map .init) with
    | nil => simp [Sequential.max_value_solution, run_records_eq, h]
    | cons r rest =>
      simp only [Sequential.max_value_solution, run_records_eq, h]
      cases hc : Sequential.construct_solution C sol0 inputs
          (pyMaxBy (fun q => g q.state) r rest).path with
      | ok sol => simp [hc, PyResult.map]
      | err e =>
        have he : e = .indexError :=
          construct_solution_err_is_indexError C inputs _ sol0 e hc
        subst he
        simp [hc, PyResult.map]
  · intro s rest F g Hopt
    rfl
  · intro s rest F g sol0 C Hopt
    rfl
  · intro inputs F g Hopt
    simp [Sequential.max_value, final_states_nil]
  · intro inputs F g sol0 C Hopt
    simp [Sequential.max_value_solution, run_records_eq, final_records_nil]

/-- C3 : demonstration of the divergence on `dpMissingValue`.  Under the
claim, the unseen neighbor `1` (value `1`) would have its value recorded
when it is discovered and enqueued, and `max_value` would return `1`.  The
code appends the unseen neighbor to `open_states` WITHOUT recording its
value in `map_state_to_value`, so popping state `1` raises `KeyError`. -/
theorem c3_general_max_value_keyerror_on_new_state :
    Classbased.max_value_general dpMissingValue 10 = .err .keyError
    ∧ (Classbased.gmax_run dpMissingValue 10).1 = .err .keyError := by
  constructor <;> rfl

/-- C5 : demonstration of the divergence on `dpDoubleEnqueue`.  State `2`
is a neighbor of both initial states; because the code never records an
unseen neighbor's value, the membership test `next_state in
map_state_to_value` fails both times and state `2` is appended to the open
worklist twice — the enqueue history is `[0, 1, 2, 2]` — before its pop
raises `KeyError`. -/
theorem c5_state_enqueued_twice :
    (Classbased.gmax_run dpDoubleEnqueue 20).2 = [0, 1, 2, 2]
    ∧ (Classbased.gmax_run dpDoubleEnqueue 20).2.count 2 = 2
    ∧ (Classbased.gmax_run dpDoubleEnqueue 20).1 = .err .keyError := by
  refine ⟨?_, ?_, ?_⟩ <;> rfl

/-- C7 (counterexample) : on `dpUnreachedFinal` no final state is ever
reached, and `DynProg.max_value` fails with a key-lookup error (the listed
final state `5` is absent from `map_state_to_value`), not with the
EmptyResult error of a maximum over an empty collection. -/
theorem c7_counterexample_keyerror_not_emptymax :
    Classbased.max_value_general dpUnreachedFinal 20 = .err .keyError
    ∧ Classbased.max_value_general dpUnreachedFinal 20 ≠ .err .valueError := by
  constructor
  · rfl
  · intro h
    rw [show Classbased.max_value_general dpUnreachedFinal 20
        = .err .keyError from rfl] at h
    cases h

/-- C7 (amended) : on an instance where the traversal completes without
reaching any final state, `DynProg.solve` fails with the EmptyResult error
(a maximum over the empty list of reached final triples), while
`DynProg.max_value` fails with a key-lookup error at the first listed final
state missing from the value map. -/
theorem c7_amended_failure_modes {σ α δ σ' α' δ' : Type}
    [DecidableEq σ] [LinearOrder α] [DecidableEq σ'] [LinearOrder α']
    (dp : DynProg σ α δ) (dp' : DynProg σ' α' δ') (fuel fuel' : ℕ)
    (mp : List (σ × Option (σ × α × δ))) (n : ℕ)
    (m : List (σ' × α')) (n' : ℕ) (s : σ') (rest : List σ')
    (hrun : Classbased.gsolve_run dp fuel = .ok ([], mp, n))
    (hrun' : (Classbased.gmax_run dp' fuel').1 = .ok (m, n'))
    (hfin : dp'.final_states = s :: rest)
    (hmiss : Classbased.dictLookup m s = none) :
    Classbased.solve dp fuel = .err .valueError
    ∧ Classbased.max_value_general dp' fuel' = .err .keyError := by
  constructor
  · rw [Classbased.solve, Classbased.solve_full, hrun]
    rfl
  · have hfv : Classbased.finals_values m (s :: rest) = .err .keyError := by
      show (match Classbased.dictLookup m s with
        | none => (PyResult.err PyError.keyError : PyResult (List α'))
        | some v => (Classbased.finals_values m rest).map (v :: ·))
        = .err .keyError
      rw [hmiss]
    simp only [Classbased.max_value_general.eq_def, hrun', hfin, hfv]

/-- Witness for the amended C7 at `dpUnreachedFinal`. -/
theorem c7_amended_failure_modes_witness :
    Classbased.gsolve_run dpUnreachedFinal 20 = .ok ([], [(0, none)], 1)
    ∧ (Classbased.gmax_run dpUnreachedFinal 20).1 = .ok ([(0, 0)], 1)
    ∧ dpUnreachedFinal.final_states = [5]
    ∧ Classbased.dictLookup [((0:ℕ), (0:ℕ))] 5 = none
    ∧ (Classbased.solve dpUnreachedFinal 20 = .err .valueError
      ∧ Classbased.max_value_general dpUnreachedFinal 20 = .err .keyError) :=
  ⟨by rfl, by rfl, by rfl, by rfl,
    c7_amended_failure_modes dpUnreachedFinal dpUnreachedFinal 20 20
      [(0, none)] 1 [(0, 0)] 1 5 [] (by rfl) (by rfl) (by rfl) (by rfl)⟩

/-- C4 (counterexample) : `dpPathLong` reaches the final triple `(1,5,7)`
from initial state `0` (internal ancestry path `[0, 1]`), while in
`dpPathShort` the same triple is initial (internal ancestry path `[1]`).
`DynProg.solve` returns identical values on both, so its return value
cannot contain the reconstructed ancestry path the claim says is
returned. -/
theorem c4_counterexample_path_not_returned :
    Classbased.solve dpPathLong 20 = Classbased.solve dpPathShort 20
    ∧ Classbased.solve_full dpPathLong 20 = .ok ((1, 5, 7), [0, 1])
    ∧ Classbased.solve_full dpPathShort 20 = .ok ((1, 5, 7), [1])
    ∧ Classbased.solve dpPathLong 20 = .ok (1, 5, 7) := by
  refine ⟨?_, ?_, ?_, ?_⟩ <;> rfl

/-- C4 (amended) : when the traversal completes with a non-empty list of
reached final triples and the parent-pointer walk from the best triple
succeeds, `DynProg.solve` returns only the best-valued reached final
triple (Python's `max` with `key = value`: first maximum wins); the
ancestry path is computed internally by walking parent pointers back to an
initial state but is not part of the return value. -/
theorem c4_amended_solve_returns_best_triple {σ α δ : Type}
    [DecidableEq σ] [LinearOrder α]
    (dp : DynProg σ α δ) (fuel : ℕ)
    (mp : List (σ × Option (σ × α × δ))) (n : ℕ)
    (r : σ × α × δ) (rs : List (σ × α × δ)) (p : List σ)
    (hrun : Classbased.gsolve_run dp fuel = .ok (r :: rs, mp, n))
    (hwalk : Classbased.walk_path mp fuel (pyMaxBy (fun t => t.2.1) r rs) []
      = .ok p) :
    Classbased.solve_full dp fuel = .ok (pyMaxBy (fun t => t.2.1) r rs, p)
    ∧ Classbased.solve dp fuel = .ok (pyMaxBy (fun t => t.2.1) r rs)
    ∧ pyMaxBy (fun t => t.2.1) r rs ∈ r :: rs
    ∧ ∀ t ∈ r :: rs, t.2.1 ≤ (pyMaxBy (fun t => t.2.1) r rs).2.1 := by
  have h1 : Classbased.solve_full dp fuel
      = .ok (pyMaxBy (fun t => t.2.1) r rs, p) := by
    rw [Classbased.solve_full, hrun]
    show (Classbased.walk_path mp fuel (pyMaxBy (fun t => t.2.1) r rs) []).map
      _ = _
    rw [hwalk]
    rfl
  exact ⟨h1, by rw [Classbased.solve, h1]; rfl,
    pyMaxBy_mem _ r rs, le_pyMaxBy _ r rs⟩

/-- Witness for the amended C4 at `dpPathLong`. -/
theorem c4_amended_solve_returns_best_triple_witness :
    Classbased.gsolve_run dpPathLong 20
      = .ok ([(1, 5, 7)], [(0, none), (1, some (0, 0, 7))], 2)
    ∧ Classbased.walk_path [(0, none), (1, some (0, 0, 7))] 20
        ((1:ℕ), (5:ℕ), (7:ℕ)) [] = .ok [0, 1]
    ∧ (Classbased.solve_full dpPathLong 20 = .ok ((1, 5, 7), [0, 1])
      ∧ Classbased.solve dpPathLong 20 = .ok (1, 5, 7)
      ∧ ((1:ℕ), (5:ℕ), (7:ℕ)) ∈ [((1:ℕ), (5:ℕ), (7:ℕ))]
      ∧ ∀ t ∈ [((1:ℕ), (5:ℕ), (7:ℕ))], t.2.1 ≤ (5:ℕ)) :=
  ⟨by rfl, by rfl,
    c4_amended_solve_returns_best_triple dpPathLong 20
      [(0, none), (1, some (0, 0, 7))] 2 (1, 5, 7) [] [0, 1]
      (by rfl) (by rfl)⟩

/-- C8 : demonstration that mismatched function-collection lengths raise no
eager ConfigurationError.  With two transition functions but only one
filter, `zip` silently truncates the pairing and `max_value_solution`
completes normally using only the first transition (returning state `3`,
solution `[1, 2]`).  With two transition functions but only one
construction function, the call fails only deep inside the replay loop,
with an IndexError, after the whole traversal has run. -/
theorem c8_no_eager_configuration_error :
    Sequential.max_value_solution [(1:ℤ), 2] [(0:ℤ)] ssF (fun s => s)
        ([] : List ℤ) ssC (some [fun _ _ => true])
      = .ok (3, 3, [1, 2], 3)
    ∧ Sequential.max_value_solution [(1:ℤ)] [(0:ℤ)] ssF (fun s => -s)
        ([] : List ℤ) [fun sol i => sol ++ [i]] none
      = .err .indexError := by
  constructor <;> rfl

set_option maxRecDepth 100000 in
/-- C9 : the subset-sum instance of `examples/subset_sum.py` with inputs
`[100,200,400,700,1100,1600,2200,2900,3700]` and capacity `4005`:
`max_value` returns `4000`, and `max_value_solution` returns best state
`4000`, best value `4000`, solution `[100, 200, 3700]`, having processed
`431` states. -/
theorem c9_subset_sum_doctest :
    Sequential.max_value ssInputs [(0:ℤ)] ssF (fun s => s) (some ssH)
      = .ok 4000
    ∧ Sequential.max_value_solution ssInputs [(0:ℤ)] ssF (fun s => s)
        ([] : List ℤ) ssC (some ssH)
      = .ok (4000, 4000, [100, 200, 3700], 431) := by
  constructor <;> rfl

end Theorems
